import Mathlib

/-!
# CarND-MPC-Project: the telemetry pipeline of `main.cpp`

A shallow embedding of the pure parts of `src/main.cpp` (`hasData`, `polyeval`,
`polyfit`, and the body of the telemetry branch of `onMessage`) together with the
interface of `MPC::Solve` declared in `src/MPC.h`.

Conventions of the embedding:

* `double` is an arbitrary field `α`; the theorems are stated over `ℝ` with
  `Real.cos`, `Real.sin`, `Real.arctan` supplied for `cos`, `sin`, `atan`.
  The definitions take the three library functions as arguments, so they can be
  evaluated over `ℚ`.
* `std::vector<double>` and `Eigen::VectorXd` are `List α`; a matrix is the list of
  its rows.
* `std::string` is `List Char`; positions are `Nat`, `string::npos` is `none`, and the
  one place where `size_t` arithmetic can wrap (`b2 - b1 + 2` in `hasData`) is
  reduced modulo `2 ^ 64`.
* An out-of-range `operator[]` read and a failed `assert` are explicit failures.
* The lengths of the waypoint lists of one telemetry message are far below `2 ^ 32`,
  so `const unsigned n_points = ptsx.size()` is the length itself.
-/

namespace MPCProject

/-! ## Failures -/

/-- The two ways the embedded code can stop without a value: an `operator[]` read past
the end of a vector, and an `assert` whose condition is false. -/
inductive Failure where
  | outOfRange
  | assertFailed
  deriving DecidableEq, Repr

/-- Read `v[i]`; reading past the end is a failure. -/
def readAt {α : Type} (v : List α) (i : Nat) : Except Failure α :=
  match v[i]? with
  | some a => .ok a
  | none => .error .outOfRange

/-! ## `hasData` (main.cpp 20-33) -/

/-- `std::string::find(pat)` scanning from the front; `i` is the position of the head
of the remaining text. -/
def findFrom (pat : List Char) : List Char → Nat → Option Nat
  | [], i => if pat = [] then some i else none
  | c :: cs, i => if pat <+: c :: cs then some i else findFrom pat cs (i + 1)

/-- `s.find(pat)`: the first position at which `pat` occurs. -/
def find (s pat : List Char) : Option Nat := findFrom pat s 0

/-- `std::string::find_first_of(set)`; `i` is the position of the head of the
remaining text. -/
def findFirstOfFrom (set : List Char) : List Char → Nat → Option Nat
  | [], _ => none
  | c :: cs, i => if c ∈ set then some i else findFirstOfFrom set cs (i + 1)

/-- `s.find_first_of(set)`: the first position holding a character of `set`. -/
def findFirstOf (s set : List Char) : Option Nat := findFirstOfFrom set s 0

/-- `std::string::rfind(pat)`: the last position at which `pat` occurs; `i` is the
position of the head of the remaining text. -/
def rfindFrom (pat : List Char) : List Char → Nat → Option Nat
  | [], i => if pat = [] then some i else none
  | c :: cs, i =>
    match rfindFrom pat cs (i + 1) with
    | some k => some k
    | none => if pat <+: c :: cs then some i else none

/-- `s.rfind(pat)`. -/
def rfind (s pat : List Char) : Option Nat := rfindFrom pat s 0

/-- `s.substr(pos, len)` for `pos ≤ s.size()`: at most `len` characters from `pos`. -/
def substr (s : List Char) (pos len : Nat) : List Char := (s.drop pos).take len

/-- The text `null`. -/
def nullText : List Char := ['n', 'u', 'l', 'l']

/-- The text `[`. -/
def openText : List Char := ['[']

/-- The text `}]`. -/
def closeText : List Char := ['}', ']']

/-- `hasData`: the empty string when `null` occurs; otherwise, when both `[` and `}]`
occur, `s.substr(b1, b2 - b1 + 2)` with the length computed in `size_t`. -/
def hasData (s : List Char) : List Char :=
  let found_null := find s nullText
  let b1 := findFirstOf s openText
  let b2 := rfind s closeText
  match found_null with
  | some _ => []
  | none =>
    match b1, b2 with
    | some b1, some b2 => substr s b1 ((b2 + 2 ^ 64 - b1 + 2) % 2 ^ 64)
    | _, _ => []

/-! ## `polyeval` (main.cpp 35-42) -/

/-- The loop of `polyeval`: `result += coeffs[i] * pow(x, i)` for the remaining
coefficients, `i` being the index of the first of them. -/
def polyevalFrom {α : Type} [Field α] (x : α) : List α → Nat → α → α
  | [], _, result => result
  | c :: cs, i, result => polyevalFrom x cs (i + 1) (result + c * x ^ i)

/-- `polyeval(coeffs, x)`. -/
def polyeval {α : Type} [Field α] (coeffs : List α) (x : α) : α :=
  polyevalFrom x coeffs 0 0

/-! ## `polyfit` (main.cpp 44-66) -/

/-- One row of `A`, from the entry `a` on: `A(j, i + 1) = A(j, i) * xvals(j)` for
`k` further columns. -/
def designRowFrom {α : Type} [Field α] (x : α) : Nat → α → List α
  | 0, a => [a]
  | k + 1, a => a :: designRowFrom x k (a * x)

/-- Row `j` of `A`: `A(j, 0) = 1.0`, then `order` further columns. -/
def designRow {α : Type} [Field α] (x : α) (order : Nat) : List α :=
  designRowFrom x order 1

/-- The matrix `A` that `polyfit` builds: `xvals.size()` rows, `order + 1` columns. -/
def designMatrix {α : Type} [Field α] (xvals : List α) (order : Nat) : List (List α) :=
  xvals.map (fun x => designRow x order)

/-- `polyfit(xvals, yvals, order)`. The two `assert`s are checked; the solve
`A.householderQr().solve(yvals)` is the Eigen library routine, passed in as `qrSolve`. -/
def polyfit {α : Type} [Field α] (qrSolve : List (List α) → List α → List α)
    (xvals yvals : List α) (order : Int) : Except Failure (List α) :=
  if xvals.length ≠ yvals.length then .error .assertFailed
  else if ¬ (1 ≤ order ∧ order ≤ (xvals.length : Int) - 1) then .error .assertFailed
  else .ok (qrSolve (designMatrix xvals order.toNat) yvals)

/-- The product of a matrix row with a coefficient vector. -/
def dot {α : Type} [Field α] (r c : List α) : α := (List.zipWith (fun a b => a * b) r c).sum

/-- The sum of squared residuals `‖A c - y‖²`. -/
def residualSq {α : Type} [Field α] (A : List (List α)) (y c : List α) : α :=
  (List.zipWith (fun r yj => (dot r c - yj) ^ 2) A y).sum

/-- Modelled from the spec: the Eigen routine `householderQr().solve` is not part of
the source files; section 4.2 gives its contract, "coefficient sequence of length
degree+1 minimizing sum of squared residuals (e.g., via QR-based least squares)".
`IsLeastSquares A y m c` says that `c` has `m` entries and no vector of `m` entries has
a smaller sum of squared residuals. -/
def IsLeastSquares (A : List (List ℝ)) (y : List ℝ) (m : Nat) (c : List ℝ) : Prop :=
  c.length = m ∧ ∀ c' : List ℝ, c'.length = m → residualSq A y c ≤ residualSq A y c'

/-! ## The telemetry branch of `onMessage` (main.cpp 91-158) -/

/-- The fields of `j[1]` that the handler reads. -/
structure Telemetry (α : Type) where
  ptsx : List α
  ptsy : List α
  x : α
  y : α
  psi : α
  speed : α
  steering_angle : α
  throttle : α

/-- The loop of lines 103-107: `fuel` iterations remain, `i` is the loop counter, `acc`
holds the entries of `ptsx_vehicle` and `ptsy_vehicle` written so far. -/
def transformLoop {α : Type} [Field α] (cosf sinf : α → α) (ptsx ptsy : List α)
    (px py psi : α) : Nat → Nat → List α × List α → Except Failure (List α × List α)
  | 0, _, acc => .ok acc
  | fuel + 1, i, acc => do
    let x ← readAt ptsx i
    let y ← readAt ptsy i
    transformLoop cosf sinf ptsx ptsy px py psi fuel (i + 1)
      (acc.1 ++ [cosf psi * (x - px) + sinf psi * (y - py)],
       acc.2 ++ [cosf psi * (y - py) - sinf psi * (x - px)])

/-- Lines 98-107: `n_points = ptsx.size()` iterations from `i = 0`. -/
def transformWaypoints {α : Type} [Field α] (cosf sinf : α → α) (ptsx ptsy : List α)
    (px py psi : α) : Except Failure (List α × List α) :=
  transformLoop cosf sinf ptsx ptsy px py psi ptsx.length 0 ([], [])

/-- The body of the transform loop for one point. -/
def toVehicle {α : Type} [Field α] (cosf sinf : α → α) (px py psi : α) (p : α × α) : α × α :=
  (cosf psi * (p.1 - px) + sinf psi * (p.2 - py),
   cosf psi * (p.2 - py) - sinf psi * (p.1 - px))

/-- Lines 111-131: `cte`, `epsi` and the state delayed by the latency. -/
def predictState {α : Type} [Field α] (sinf atanf : α → α) (v steer_value throttle_value : α)
    (coeffs : List α) : Except Failure (List α) := do
  let cte := polyeval coeffs 0
  let c1 ← readAt coeffs 1
  let epsi := -atanf c1
  let latency : α := 0.1
  let Lf : α := 2.67
  let delayed_x := v * latency
  let delayed_y : α := 0
  let delayed_psi := -v * steer_value / Lf * latency
  let delayed_v := v + throttle_value * latency
  let delayed_cte := cte + v * sinf epsi * latency
  let delayed_epsi := epsi - v * steer_value / Lf * latency
  pure [delayed_x, delayed_y, delayed_psi, delayed_v, delayed_cte, delayed_epsi]

/-- Modelled from the spec: the status of a solve (section 3, "status distinguishes
converged / non-converged / infeasible"); the solver itself is an external library. -/
inductive SolveStatus where
  | converged
  | nonConverged
  | infeasible
  deriving DecidableEq, Repr

/-- Modelled from the spec: the `SolveResult` of section 3, "{Actuation, Trajectory,
status}", what the nonlinear solve inside `MPC::Solve` ends with. -/
structure SolveResult (α : Type) where
  actuation : α × α
  trajectory : List (α × α)
  status : SolveStatus

/-- The four output parameters of `MPC::Solve` (MPC.h 18); the function returns `void`. -/
structure SolveOut (α : Type) where
  steering_angle : α
  throttle : α
  mpc_x_vals : List α
  mpc_y_vals : List α

/-- Modelled from the spec: the body of `MPC::Solve` (MPC.cpp) is not part of the source
files. Section 4.4 has it delegate to the solver, take the command from "Actuation at
step 0 of the solution" and the trajectory from "the (x,y) pairs from the solved state
sequence"; section 9 records "the source-level behavior of using the solver's output
regardless of status". The outputs are the four reference parameters of MPC.h. -/
def MPC.Solve {α : Type} (nlp : List α → List α → SolveResult α) (state coeffs : List α) :
    SolveOut α :=
  let r := nlp state coeffs
  { steering_angle := r.actuation.1
    throttle := r.actuation.2
    mpc_x_vals := r.trajectory.map Prod.fst
    mpc_y_vals := r.trajectory.map Prod.snd }

/-- The fields of `msgJson`, the command sent back. -/
structure Command (α : Type) where
  steering_angle : α
  throttle : α
  mpc_x : List α
  mpc_y : List α
  next_x : List α
  next_y : List α

/-- Lines 98-131: everything the handler computes before the call of `mpc.Solve`: the
vehicle-frame waypoints, the fitted coefficients and the state vector. -/
def solveInput {α : Type} [Field α] (cosf sinf atanf : α → α)
    (qrSolve : List (List α) → List α → List α) (t : Telemetry α) :
    Except Failure ((List α × List α) × List α × List α) := do
  let pts ← transformWaypoints cosf sinf t.ptsx t.ptsy t.x t.y t.psi
  let coeffs ← polyfit qrSolve pts.1 pts.2 3
  let state ← predictState sinf atanf t.speed t.steering_angle t.throttle coeffs
  pure (pts, coeffs, state)

/-- Lines 91-158: the telemetry branch, from the decoded message to `msgJson`. -/
def onTelemetry {α : Type} [Field α] (cosf sinf atanf : α → α)
    (qrSolve : List (List α) → List α → List α) (mpcSolve : List α → List α → SolveOut α)
    (t : Telemetry α) : Except Failure (Command α) := do
  let inp ← solveInput cosf sinf atanf qrSolve t
  let out := mpcSolve inp.2.2 inp.2.1
  pure { steering_angle := out.steering_angle
         throttle := out.throttle
         mpc_x := out.mpc_x_vals
         mpc_y := out.mpc_y_vals
         next_x := inp.1.1
         next_y := inp.1.2 }

/-- The inverse of the world-to-vehicle transform as the round-trip property words it:
`x = cos psi * x' - sin psi * y' + px`, `y = sin psi * x' + cos psi * y' + py`. -/
def toWorld {α : Type} [Field α] (cosf sinf : α → α) (px py psi : α) (p : α × α) : α × α :=
  (cosf psi * p.1 - sinf psi * p.2 + px, sinf psi * p.1 + cosf psi * p.2 + py)

/-- The known cubic of the fit-exactness property, `f(x) = a + b x + c x² + d x³`. -/
def cubic {α : Type} [Field α] (a b c d x : α) : α := a + b * x + c * x ^ 2 + d * x ^ 3

/-! ## Shared lemmas on the transform loop -/

theorem readAt_of_lt {α : Type} (v : List α) (i : Nat) (h : i < v.length) :
    readAt v i = .ok (v.get ⟨i, h⟩) := by
  simp [readAt, List.getElem?_eq_getElem h]

theorem readAt_of_le {α : Type} (v : List α) (i : Nat) (h : v.length ≤ i) :
    readAt v i = .error .outOfRange := by
  simp [readAt, List.getElem?_eq_none h]

theorem transformLoop_ok {α : Type} [Field α] (cosf sinf : α → α) (ptsx ptsy : List α)
    (px py psi : α) :
    ∀ (fuel i : Nat) (acc : List α × List α), i + fuel ≤ ptsx.length → i + fuel ≤ ptsy.length →
      transformLoop cosf sinf ptsx ptsy px py psi fuel i acc =
        .ok (acc.1 ++ (((ptsx.zip ptsy).drop i).take fuel).map
                (fun p => (toVehicle cosf sinf px py psi p).1),
             acc.2 ++ (((ptsx.zip ptsy).drop i).take fuel).map
                (fun p => (toVehicle cosf sinf px py psi p).2)) := by
  intro fuel
  induction fuel with
  | zero => intro i acc _ _; simp [transformLoop]
  | succ k ih =>
    intro i acc hx hy
    have hix : i < ptsx.length := by omega
    have hiy : i < ptsy.length := by omega
    have hz : i < (ptsx.zip ptsy).length := by simp [List.length_zip]; omega
    have hd : (ptsx.zip ptsy).drop i
        = (ptsx.get ⟨i, hix⟩, ptsy.get ⟨i, hiy⟩) :: (ptsx.zip ptsy).drop (i + 1) := by
      rw [List.drop_eq_getElem_cons hz]
      simp [List.getElem_zip]
    simp only [transformLoop, readAt_of_lt ptsx i hix, readAt_of_lt ptsy i hiy]
    show transformLoop cosf sinf ptsx ptsy px py psi k (i + 1) _ = _
    rw [ih (i + 1) _ (by omega) (by omega), hd]
    simp [toVehicle]

theorem transformWaypoints_of_le {α : Type} [Field α] (cosf sinf : α → α) (ptsx ptsy : List α)
    (px py psi : α) (h : ptsx.length ≤ ptsy.length) :
    transformWaypoints cosf sinf ptsx ptsy px py psi =
      .ok ((ptsx.zip ptsy).map (fun p => (toVehicle cosf sinf px py psi p).1),
           (ptsx.zip ptsy).map (fun p => (toVehicle cosf sinf px py psi p).2)) := by
  unfold transformWaypoints
  rw [transformLoop_ok cosf sinf ptsx ptsy px py psi ptsx.length 0 ([], []) (by omega) (by omega)]
  have hl : (ptsx.zip ptsy).length ≤ ptsx.length := by simp [List.length_zip]
  simp [List.take_of_length_le hl]

theorem transformWaypoints_of_gt {α : Type} [Field α] (cosf sinf : α → α) (ptsx ptsy : List α)
    (px py psi : α) (h : ptsy.length < ptsx.length) :
    transformWaypoints cosf sinf ptsx ptsy px py psi = .error .outOfRange := by
  have key : ∀ (fuel i : Nat) (acc : List α × List α), i ≤ ptsy.length → ptsy.length < i + fuel →
      i + fuel ≤ ptsx.length →
      transformLoop cosf sinf ptsx ptsy px py psi fuel i acc = .error .outOfRange := by
    intro fuel
    induction fuel with
    | zero => intro i acc h1 h2 _; omega
    | succ k ih =>
      intro i acc h1 h2 h3
      have hix : i < ptsx.length := by omega
      by_cases hy : i < ptsy.length
      · simp only [transformLoop, readAt_of_lt ptsx i hix, readAt_of_lt ptsy i hy]
        exact ih (i + 1) _ (by omega) (by omega) (by omega)
      · simp only [transformLoop, readAt_of_lt ptsx i hix, readAt_of_le ptsy i (by omega)]
        rfl
  exact key ptsx.length 0 ([], []) (by omega) (by omega) (by omega)

/-! ## Frame transformer -/

/-- Claim C1. For every pose and every two waypoint lists of equal length `n`, the
transform loop of the handler ends with two lists of length `n`, whose `i`-th entries are
`cos psi * (ptsx[i] - px) + sin psi * (ptsy[i] - py)` and
`cos psi * (ptsy[i] - py) - sin psi * (ptsx[i] - px)`. -/
theorem frame_transform_entries (px py psi : ℝ) (ptsx ptsy : List ℝ)
    (hlen : ptsx.length = ptsy.length) :
    ∃ xs ys : List ℝ,
      transformWaypoints Real.cos Real.sin ptsx ptsy px py psi = .ok (xs, ys) ∧
      xs.length = ptsx.length ∧ ys.length = ptsx.length ∧
      ∀ (i : Nat) (hx : i < ptsx.length) (hy : i < ptsy.length),
        xs[i]? = some (Real.cos psi * (ptsx.get ⟨i, hx⟩ - px)
                        + Real.sin psi * (ptsy.get ⟨i, hy⟩ - py)) ∧
        ys[i]? = some (Real.cos psi * (ptsy.get ⟨i, hy⟩ - py)
                        - Real.sin psi * (ptsx.get ⟨i, hx⟩ - px)) := by
  refine ⟨_, _, transformWaypoints_of_le Real.cos Real.sin ptsx ptsy px py psi (by omega), ?_, ?_, ?_⟩
  · simp [List.length_zip, hlen]
  · simp [List.length_zip, hlen]
  · intro i hx hy
    have hz : i < (ptsx.zip ptsy).length := by simp [List.length_zip]; omega
    simp [List.getElem?_map, List.getElem?_eq_getElem hz, List.getElem_zip, toVehicle]

theorem frame_transform_entries_witness :
    ([1, 2] : List ℝ).length = ([3, 4] : List ℝ).length ∧
    ∃ xs ys : List ℝ,
      transformWaypoints Real.cos Real.sin [1, 2] [3, 4] 0 0 0 = .ok (xs, ys) ∧
      xs.length = ([1, 2] : List ℝ).length ∧ ys.length = ([1, 2] : List ℝ).length ∧
      ∀ (i : Nat) (hx : i < ([1, 2] : List ℝ).length) (hy : i < ([3, 4] : List ℝ).length),
        xs[i]? = some (Real.cos 0 * (([1, 2] : List ℝ).get ⟨i, hx⟩ - 0)
                        + Real.sin 0 * (([3, 4] : List ℝ).get ⟨i, hy⟩ - 0)) ∧
        ys[i]? = some (Real.cos 0 * (([3, 4] : List ℝ).get ⟨i, hy⟩ - 0)
                        - Real.sin 0 * (([1, 2] : List ℝ).get ⟨i, hx⟩ - 0)) :=
  ⟨rfl, frame_transform_entries 0 0 0 [1, 2] [3, 4] rfl⟩

theorem toWorld_toVehicle (px py psi : ℝ) (p : ℝ × ℝ) :
    toWorld Real.cos Real.sin px py psi (toVehicle Real.cos Real.sin px py psi p) = p := by
  have h := Real.cos_sq_add_sin_sq psi
  obtain ⟨x, y⟩ := p
  simp only [toWorld, toVehicle, Prod.mk.injEq]
  constructor
  · linear_combination (x - px) * h
  · linear_combination (y - py) * h

/-- Claim C2. For every pose and every two world-frame coordinate lists of equal length,
the transform loop of the handler succeeds, and applying the inverse rotation and
translation to each transformed point gives back the world-frame points exactly. -/
theorem round_trip_transform (px py psi : ℝ) (ptsx ptsy : List ℝ)
    (hlen : ptsx.length = ptsy.length) :
    ∃ xs ys : List ℝ,
      transformWaypoints Real.cos Real.sin ptsx ptsy px py psi = .ok (xs, ys) ∧
      (xs.zip ys).map (toWorld Real.cos Real.sin px py psi) = ptsx.zip ptsy := by
  refine ⟨_, _, transformWaypoints_of_le Real.cos Real.sin ptsx ptsy px py psi (by omega), ?_⟩
  rw [List.zip_map']
  simp only [List.map_map]
  conv_rhs => rw [← List.map_id (ptsx.zip ptsy)]
  apply List.map_congr_left
  intro p _
  exact toWorld_toVehicle px py psi p

theorem round_trip_transform_witness :
    ([1, 2] : List ℝ).length = ([3, 4] : List ℝ).length ∧
    ∃ xs ys : List ℝ,
      transformWaypoints Real.cos Real.sin [1, 2] [3, 4] 5 6 7 = .ok (xs, ys) ∧
      (xs.zip ys).map (toWorld Real.cos Real.sin 5 6 7) = ([1, 2] : List ℝ).zip [3, 4] :=
  ⟨rfl, round_trip_transform 5 6 7 [1, 2] [3, 4] rfl⟩

/-- Claim C10. The world-to-vehicle transform of the handler is a rigid motion anchored
at the vehicle: the vehicle position maps to the origin, the squared distance between
the images of two world points equals the squared distance between the points, and the
squared distance of a transformed waypoint from the origin equals the squared
world-frame distance of the waypoint from the vehicle. -/
theorem transform_rigid_motion (px py psi : ℝ) :
    transformWaypoints Real.cos Real.sin [px] [py] px py psi = .ok ([0], [0]) ∧
    (∀ P Q : ℝ × ℝ, ∃ a b c d : ℝ,
      transformWaypoints Real.cos Real.sin [P.1, Q.1] [P.2, Q.2] px py psi
        = .ok ([a, c], [b, d]) ∧
      (a - c) ^ 2 + (b - d) ^ 2 = (P.1 - Q.1) ^ 2 + (P.2 - Q.2) ^ 2) ∧
    (∀ x y : ℝ, ∃ x' y' : ℝ,
      transformWaypoints Real.cos Real.sin [x] [y] px py psi = .ok ([x'], [y']) ∧
      x' ^ 2 + y' ^ 2 = (x - px) ^ 2 + (y - py) ^ 2) := by
  have h := Real.cos_sq_add_sin_sq psi
  refine ⟨?_, ?_, ?_⟩
  · rw [transformWaypoints_of_le _ _ _ _ _ _ _ (by simp)]
    simp [toVehicle]
  · intro P Q
    refine ⟨(toVehicle Real.cos Real.sin px py psi P).1, (toVehicle Real.cos Real.sin px py psi P).2,
      (toVehicle Real.cos Real.sin px py psi Q).1, (toVehicle Real.cos Real.sin px py psi Q).2, ?_, ?_⟩
    · rw [transformWaypoints_of_le _ _ _ _ _ _ _ (by simp)]
      simp only [List.zip_cons_cons, List.zip_nil_right, List.map_cons, List.map_nil]
    · simp only [toVehicle]
      linear_combination ((P.1 - Q.1) ^ 2 + (P.2 - Q.2) ^ 2) * h
  · intro x y
    refine ⟨(toVehicle Real.cos Real.sin px py psi (x, y)).1,
      (toVehicle Real.cos Real.sin px py psi (x, y)).2, ?_, ?_⟩
    · rw [transformWaypoints_of_le _ _ _ _ _ _ _ (by simp)]
      simp only [List.zip_cons_cons, List.zip_nil_right, List.map_cons, List.map_nil]
    · simp only [toVehicle]
      linear_combination ((x - px) ^ 2 + (y - py) ^ 2) * h

/-! ## `polyeval` -/

theorem polyevalFrom_eq_sum {α : Type} [Field α] (x : α) :
    ∀ (cs : List α) (i : Nat) (r : α),
      polyevalFrom x cs i r = r + ∑ j in Finset.range cs.length, cs.getD j 0 * x ^ (i + j) := by
  intro cs
  induction cs with
  | nil => intro i r; simp [polyevalFrom]
  | cons c cs ih =>
    intro i r
    rw [polyevalFrom, ih, List.length_cons, Finset.sum_range_succ']
    simp only [List.getD_cons_succ, List.getD_cons_zero, Nat.add_zero]
    have : ∀ j, x ^ (i + 1 + j) = x ^ (i + (j + 1)) := fun j => by ring_nf
    simp only [this]
    ring

theorem polyevalFrom_zero {α : Type} [Field α] :
    ∀ (cs : List α) (i : Nat) (r : α), polyevalFrom 0 cs (i + 1) r = r := by
  intro cs
  induction cs with
  | nil => intro i r; rfl
  | cons c cs ih => intro i r; rw [polyevalFrom, ih]; simp

/-- Claim C8. `polyeval` evaluates the polynomial whose constant term comes first:
`polyeval coeffs x` is the sum over `i < m` of `coeffs[i] * x ^ i` (so `0` for the empty
vector), and at `x = 0` a non-empty vector gives its first entry, which is the value the
handler takes as the initial cross-track error. -/
theorem polyeval_constant_first (x : ℝ) (c : ℝ) (coeffs : List ℝ) :
    polyeval coeffs x = ∑ i in Finset.range coeffs.length, coeffs.getD i 0 * x ^ i ∧
    polyeval ([] : List ℝ) x = 0 ∧
    polyeval (c :: coeffs) 0 = c := by
  refine ⟨?_, rfl, ?_⟩
  · simp [polyeval, polyevalFrom_eq_sum]
  · simp [polyeval, polyevalFrom, polyevalFrom_zero]

/-! ## Latency compensator -/

/-- Claim C4. With `cte0 = polyeval coeffs 0`, `epsi0 = -atan coeffs[1]`, `dt = 0.1` and
`Lf = 2.67`, the state vector the handler builds for `MPC::Solve` is
`(v*dt, 0, -v*steer/Lf*dt, v + throttle*dt, cte0 + v*sin(epsi0)*dt, epsi0 - v*steer/Lf*dt)`,
in the order x, y, psi, v, cte, epsi. -/
theorem latency_state (v steer throttle : ℝ) (coeffs : List ℝ) (h : 1 < coeffs.length) :
    predictState Real.sin Real.arctan v steer throttle coeffs =
      .ok [v * 0.1, 0, -v * steer / 2.67 * 0.1, v + throttle * 0.1,
           polyeval coeffs 0 + v * Real.sin (-Real.arctan (coeffs.get ⟨1, h⟩)) * 0.1,
           -Real.arctan (coeffs.get ⟨1, h⟩) - v * steer / 2.67 * 0.1] := by
  simp only [predictState, readAt_of_lt coeffs 1 h]
  rfl

theorem latency_state_witness :
    1 < ([1, 2, 3, 4] : List ℝ).length ∧
    predictState Real.sin Real.arctan 10 1 1 [1, 2, 3, 4] =
      .ok [10 * 0.1, 0, -10 * 1 / 2.67 * 0.1, 10 + 1 * 0.1,
           polyeval [1, 2, 3, 4] 0 + 10 * Real.sin (-Real.arctan 2) * 0.1,
           -Real.arctan 2 - 10 * 1 / 2.67 * 0.1] :=
  ⟨by decide, latency_state 10 1 1 [1, 2, 3, 4] (by decide)⟩

/-! ## `polyfit` -/

theorem dot_designRow_three (x c0 c1 c2 c3 : ℝ) :
    dot (designRow x 3) [c0, c1, c2, c3] = cubic c0 c1 c2 c3 x := by
  simp [dot, designRow, designRowFrom, cubic]
  ring

theorem residualSq_designMatrix (f : ℝ → ℝ) (c : List ℝ) (order : Nat) :
    ∀ xs : List ℝ, residualSq (designMatrix xs order) (xs.map f) c
      = (xs.map (fun x => (dot (designRow x order) c - f x) ^ 2)).sum := by
  intro xs
  induction xs with
  | nil => simp [residualSq, designMatrix]
  | cons x xs ih =>
    simp only [residualSq, designMatrix, List.map_cons, List.zipWith_cons_cons, List.sum_cons]
      at ih ⊢
    rw [ih]

theorem residualSq_nonneg (A : List (List ℝ)) (y c : List ℝ) : 0 ≤ residualSq A y c := by
  unfold residualSq
  induction A generalizing y with
  | nil => simp
  | cons r A ih =>
    cases y with
    | nil => simp
    | cons yj y =>
      simp only [List.zipWith_cons_cons, List.sum_cons]
      have := ih y
      positivity

theorem sum_sq_eq_zero (g : ℝ → ℝ) :
    ∀ xs : List ℝ, (xs.map (fun x => (g x) ^ 2)).sum = 0 → ∀ x ∈ xs, g x = 0 := by
  intro xs
  induction xs with
  | nil => intro _ x hx; simp at hx
  | cons a xs ih =>
    intro h x hx
    simp only [List.map_cons, List.sum_cons] at h
    have h1 : 0 ≤ (g a) ^ 2 := by positivity
    have h2 : 0 ≤ (xs.map (fun x => (g x) ^ 2)).sum := by
      apply List.sum_nonneg
      intro v hv
      obtain ⟨p, _, rfl⟩ := List.mem_map.mp hv
      positivity
    rcases List.mem_cons.mp hx with rfl | hx
    · have : (g x) ^ 2 = 0 := by linarith
      exact pow_eq_zero_iff (by norm_num) |>.mp this
    · exact ih (by linarith) x hx

theorem cubic_zero_of_four_roots (e0 e1 e2 e3 : ℝ) (s : Finset ℝ) (hs : 4 ≤ s.card)
    (h : ∀ x ∈ s, cubic e0 e1 e2 e3 x = 0) : e0 = 0 ∧ e1 = 0 ∧ e2 = 0 ∧ e3 = 0 := by
  let P : Polynomial ℝ :=
    Polynomial.C e0 + Polynomial.C e1 * Polynomial.X + Polynomial.C e2 * Polynomial.X ^ 2
      + Polynomial.C e3 * Polynomial.X ^ 3
  have hdeg : P.natDegree ≤ 3 := by
    simp only [P]
    compute_degree
  have heval : ∀ x ∈ s, P.eval x = 0 := by
    intro x hx
    have := h x hx
    simp only [cubic] at this
    simp only [P, Polynomial.eval_add, Polynomial.eval_mul, Polynomial.eval_C, Polynomial.eval_pow,
      Polynomial.eval_X]
    linarith
  have hP : P = 0 :=
    Polynomial.eq_zero_of_natDegree_lt_card_of_eval_eq_zero' P s heval (by omega)
  have c0 : P.coeff 0 = e0 := by simp [P]
  have c1 : P.coeff 1 = e1 := by simp [P, Polynomial.coeff_X, Polynomial.coeff_C]
  have c2 : P.coeff 2 = e2 := by simp [P, Polynomial.coeff_X, Polynomial.coeff_C]
  have c3 : P.coeff 3 = e3 := by simp [P, Polynomial.coeff_X, Polynomial.coeff_C]
  rw [hP] at c0 c1 c2 c3
  simp at c0 c1 c2 c3
  exact ⟨c0.symm, c1.symm, c2.symm, c3.symm⟩

theorem polyfit_three {α : Type} [Field α] (qrSolve : List (List α) → List α → List α)
    (xs ys : List α) :
    polyfit qrSolve xs ys 3 =
      if xs.length = ys.length ∧ 4 ≤ xs.length then .ok (qrSolve (designMatrix xs 3) ys)
      else .error .assertFailed := by
  unfold polyfit
  by_cases h1 : xs.length = ys.length
  · by_cases h2 : 4 ≤ xs.length
    · have h3 : (1 : Int) ≤ 3 ∧ (3 : Int) ≤ (xs.length : Int) - 1 := by omega
      rw [if_neg (not_not.mpr h1), if_neg (not_not.mpr h3), if_pos ⟨h1, h2⟩]
      rfl
    · have h3 : ¬ ((1 : Int) ≤ 3 ∧ (3 : Int) ≤ (xs.length : Int) - 1) := by omega
      rw [if_neg (not_not.mpr h1), if_pos h3, if_neg (fun h => h2 h.2)]
  · rw [if_pos h1, if_neg (fun h => h1 h.1)]

theorem list_of_length_four {α : Type} (q : List α) (h : q.length = 4) :
    ∃ a b c d, q = [a, b, c, d] := by
  rcases q with _ | ⟨a, _ | ⟨b, _ | ⟨c, _ | ⟨d, _ | ⟨e, t⟩⟩⟩⟩⟩ <;> simp at h
  exact ⟨a, b, c, d, rfl⟩

/-- Claim C3, amended. For every cubic `f(x) = a + b x + c x² + d x³` and every list of
sample points `(x_i, f(x_i))` whose `x_i` take at least 4 distinct values, `polyfit` of
order 3 with a solve that returns a least-squares minimiser over the matrix `polyfit`
builds returns a vector, and that vector is exactly `(a, b, c, d)`, constant term first. -/
theorem fit_exact_of_four_distinct (a b c d : ℝ) (xs : List ℝ)
    (qrSolve : List (List ℝ) → List ℝ → List ℝ)
    (hdistinct : 4 ≤ xs.toFinset.card)
    (hsolve : IsLeastSquares (designMatrix xs 3) (xs.map (cubic a b c d)) 4
      (qrSolve (designMatrix xs 3) (xs.map (cubic a b c d)))) :
    polyfit qrSolve xs (xs.map (cubic a b c d)) 3 = .ok [a, b, c, d] := by
  have hn : 4 ≤ xs.length := le_trans hdistinct (List.toFinset_card_le xs)
  rw [polyfit_three, if_pos ⟨by simp, hn⟩]
  obtain ⟨hlen, hmin⟩ := hsolve
  have h0 : residualSq (designMatrix xs 3) (xs.map (cubic a b c d)) [a, b, c, d] = 0 := by
    rw [residualSq_designMatrix]
    apply List.sum_eq_zero
    intro v hv
    obtain ⟨x, _, rfl⟩ := List.mem_map.mp hv
    rw [dot_designRow_three]
    simp
  have hle := hmin [a, b, c, d] rfl
  rw [h0] at hle
  have hz := le_antisymm hle (residualSq_nonneg _ _ _)
  generalize qrSolve (designMatrix xs 3) (xs.map (cubic a b c d)) = q at hlen hz ⊢
  obtain ⟨c0, c1, c2, c3, rfl⟩ := list_of_length_four q hlen
  rw [residualSq_designMatrix] at hz
  have hroots := sum_sq_eq_zero
    (fun x => dot (designRow x 3) [c0, c1, c2, c3] - cubic a b c d x) xs hz
  have hcub : ∀ x ∈ xs.toFinset, cubic (c0 - a) (c1 - b) (c2 - c) (c3 - d) x = 0 := by
    intro x hx
    have := hroots x (List.mem_toFinset.mp hx)
    simp only [dot_designRow_three, cubic] at this ⊢
    linarith
  obtain ⟨e0, e1, e2, e3⟩ := cubic_zero_of_four_roots _ _ _ _ xs.toFinset hdistinct hcub
  have ha : c0 = a := by linarith
  have hb : c1 = b := by linarith
  have hc : c2 = c := by linarith
  have hd : c3 = d := by linarith
  rw [ha, hb, hc, hd]

theorem least_squares_of_residual_zero (A : List (List ℝ)) (y c : List ℝ)
    (h : residualSq A y c = 0) : IsLeastSquares A y c.length c :=
  ⟨rfl, fun c' _ => by rw [h]; exact residualSq_nonneg A y c'⟩

theorem four_distinct_samples : 4 ≤ ([0, 1, 2, 3] : List ℝ).toFinset.card := by
  have h : ([0, 1, 2, 3] : List ℝ).Nodup := by simp
  rw [List.toFinset_card_of_nodup h]
  simp

theorem fit_exact_of_four_distinct_witness :
    4 ≤ ([0, 1, 2, 3] : List ℝ).toFinset.card ∧
    IsLeastSquares (designMatrix [0, 1, 2, 3] 3) (([0, 1, 2, 3] : List ℝ).map (cubic 1 2 3 4)) 4
      [1, 2, 3, 4] ∧
    polyfit (fun _ _ => [1, 2, 3, 4]) [0, 1, 2, 3] (([0, 1, 2, 3] : List ℝ).map (cubic 1 2 3 4)) 3
      = .ok [1, 2, 3, 4] :=
  have hls : IsLeastSquares (designMatrix [0, 1, 2, 3] 3)
      (([0, 1, 2, 3] : List ℝ).map (cubic 1 2 3 4)) 4 [1, 2, 3, 4] :=
    least_squares_of_residual_zero _ _ [1, 2, 3, 4] (by
      norm_num [residualSq, designMatrix, designRow, designRowFrom, dot, cubic])
  ⟨four_distinct_samples, hls,
    fit_exact_of_four_distinct 1 2 3 4 [0, 1, 2, 3] (fun _ _ => [1, 2, 3, 4])
      four_distinct_samples hls⟩

/-- Claim C3, counterexample. The four sample points with `x_i = 0` taken from the cubic
`f(x) = x` are also four sample points of the zero cubic; for that data `(0, 1, 0, 0)` and
`(0, 0, 0, 0)` both minimise the sum of squared residuals, so no solve makes `polyfit`
return the coefficients of both cubics, and a solve answering `(0, 0, 0, 0)` meets the
least-squares contract while `polyfit` does not return `(0, 1, 0, 0)`. -/
theorem fit_exact_counterexample :
    4 ≤ ([0, 0, 0, 0] : List ℝ).length ∧
    ([0, 0, 0, 0] : List ℝ).map (cubic 0 1 0 0) = ([0, 0, 0, 0] : List ℝ).map (cubic 0 0 0 0) ∧
    IsLeastSquares (designMatrix [0, 0, 0, 0] 3) (([0, 0, 0, 0] : List ℝ).map (cubic 0 1 0 0)) 4
      [0, 1, 0, 0] ∧
    IsLeastSquares (designMatrix [0, 0, 0, 0] 3) (([0, 0, 0, 0] : List ℝ).map (cubic 0 1 0 0)) 4
      [0, 0, 0, 0] ∧
    polyfit (fun _ _ => [0, 0, 0, 0]) [0, 0, 0, 0] (([0, 0, 0, 0] : List ℝ).map (cubic 0 1 0 0)) 3
      = .ok [0, 0, 0, 0] ∧
    polyfit (fun _ _ => [0, 0, 0, 0]) [0, 0, 0, 0] (([0, 0, 0, 0] : List ℝ).map (cubic 0 1 0 0)) 3
      ≠ .ok [0, 1, 0, 0] ∧
    ¬ ∃ qrSolve : List (List ℝ) → List ℝ → List ℝ,
      polyfit qrSolve [0, 0, 0, 0] (([0, 0, 0, 0] : List ℝ).map (cubic 0 1 0 0)) 3
        = .ok [0, 1, 0, 0] ∧
      polyfit qrSolve [0, 0, 0, 0] (([0, 0, 0, 0] : List ℝ).map (cubic 0 0 0 0)) 3
        = .ok [0, 0, 0, 0] := by
  have hdata : ([0, 0, 0, 0] : List ℝ).map (cubic 0 1 0 0)
      = ([0, 0, 0, 0] : List ℝ).map (cubic 0 0 0 0) := by simp [cubic]
  have hfit : polyfit (fun _ _ => [0, 0, 0, 0]) [0, 0, 0, 0]
      (([0, 0, 0, 0] : List ℝ).map (cubic 0 1 0 0)) 3 = .ok [0, 0, 0, 0] := by
    rw [polyfit_three, if_pos ⟨by simp, by simp⟩]
  refine ⟨by simp, hdata, ?_, ?_, hfit, ?_, ?_⟩
  · exact least_squares_of_residual_zero _ _ [0, 1, 0, 0] (by
      simp [residualSq, designMatrix, designRow, designRowFrom, dot, cubic])
  · exact least_squares_of_residual_zero _ _ [0, 0, 0, 0] (by
      simp [residualSq, designMatrix, designRow, designRowFrom, dot, cubic])
  · rw [hfit]
    intro h
    have := Except.ok.inj h
    simp at this
  · rintro ⟨q, h1, h2⟩
    rw [hdata, h2] at h1
    have := Except.ok.inj h1
    simp at this

/-! ## Shared lemmas on the handler -/

theorem predictState_ok {α : Type} [Field α] (sinf atanf : α → α) (v steer throttle : α)
    (coeffs : List α) (h : 1 < coeffs.length) :
    predictState sinf atanf v steer throttle coeffs =
      .ok [v * 0.1, 0, -v * steer / 2.67 * 0.1, v + throttle * 0.1,
           polyeval coeffs 0 + v * sinf (-atanf (coeffs.get ⟨1, h⟩)) * 0.1,
           -atanf (coeffs.get ⟨1, h⟩) - v * steer / 2.67 * 0.1] := by
  simp only [predictState, readAt_of_lt coeffs 1 h]
  rfl

theorem solveInput_of_le {α : Type} [Field α] (cosf sinf atanf : α → α)
    (qrSolve : List (List α) → List α → List α) (t : Telemetry α)
    (hle : t.ptsx.length ≤ t.ptsy.length) (h4 : 4 ≤ t.ptsx.length)
    (xs ys : List α)
    (hxs : xs = (t.ptsx.zip t.ptsy).map (fun p => (toVehicle cosf sinf t.x t.y t.psi p).1))
    (hys : ys = (t.ptsx.zip t.ptsy).map (fun p => (toVehicle cosf sinf t.x t.y t.psi p).2))
    (c0 c1 : α) (rest : List α) (hc : qrSolve (designMatrix xs 3) ys = c0 :: c1 :: rest) :
    ∃ state, predictState sinf atanf t.speed t.steering_angle t.throttle (c0 :: c1 :: rest)
        = .ok state ∧
      solveInput cosf sinf atanf qrSolve t = .ok ((xs, ys), c0 :: c1 :: rest, state) := by
  have hlen : xs.length = ys.length ∧ 4 ≤ xs.length := by
    subst hxs hys
    simp [List.length_zip]
    omega
  have hp : ∃ state, predictState sinf atanf t.speed t.steering_angle t.throttle
      (c0 :: c1 :: rest) = .ok state :=
    ⟨_, predictState_ok sinf atanf t.speed t.steering_angle t.throttle (c0 :: c1 :: rest)
      (by simp)⟩
  obtain ⟨state, hstate⟩ := hp
  refine ⟨state, hstate, ?_⟩
  unfold solveInput
  rw [transformWaypoints_of_le cosf sinf t.ptsx t.ptsy t.x t.y t.psi hle, ← hxs, ← hys]
  show (polyfit qrSolve xs ys 3 >>= fun coeffs => _) = _
  rw [polyfit_three, if_pos hlen, hc]
  show (predictState sinf atanf t.speed t.steering_angle t.throttle (c0 :: c1 :: rest)
    >>= fun st => _) = _
  rw [hstate]
  rfl

theorem onTelemetry_of_solveInput {α : Type} [Field α] (cosf sinf atanf : α → α)
    (qrSolve : List (List α) → List α → List α) (mpcSolve : List α → List α → SolveOut α)
    (t : Telemetry α) (inp : (List α × List α) × List α × List α)
    (h : solveInput cosf sinf atanf qrSolve t = .ok inp) :
    onTelemetry cosf sinf atanf qrSolve mpcSolve t =
      .ok { steering_angle := (mpcSolve inp.2.2 inp.2.1).steering_angle
            throttle := (mpcSolve inp.2.2 inp.2.1).throttle
            mpc_x := (mpcSolve inp.2.2 inp.2.1).mpc_x_vals
            mpc_y := (mpcSolve inp.2.2 inp.2.1).mpc_y_vals
            next_x := inp.1.1
            next_y := inp.1.2 } := by
  unfold onTelemetry
  rw [h]
  rfl

theorem list_of_one_lt_length {α : Type} (q : List α) (h : 1 < q.length) :
    ∃ a b rest, q = a :: b :: rest := by
  rcases q with _ | ⟨a, _ | ⟨b, rest⟩⟩
  · simp at h
  · simp at h
  · exact ⟨a, b, rest, rfl⟩

/-! ## Error handling -/

/-- Claim C5, amended. For every telemetry event whose `ptsy` is at least as long as
`ptsx` (equal or longer), the transform loop raises no failure: every read is in range,
the first `ptsx.size()` pairs are transformed and further `ptsy` entries are ignored, and
two vectors of length `ptsx.size()` go to `polyfit`, whose size assertion on them holds;
when that length is at least 4 and the fit returns at least two coefficients the handler
goes on to the solve and builds a command. -/
theorem waypoints_ptsy_not_shorter (t : Telemetry ℝ)
    (qrSolve : List (List ℝ) → List ℝ → List ℝ) (mpcSolve : List ℝ → List ℝ → SolveOut ℝ)
    (hle : t.ptsx.length ≤ t.ptsy.length) :
    ∃ xs ys : List ℝ,
      transformWaypoints Real.cos Real.sin t.ptsx t.ptsy t.x t.y t.psi = .ok (xs, ys) ∧
      xs.length = t.ptsx.length ∧ ys.length = t.ptsx.length ∧
      (∀ (i : Nat) (hx : i < t.ptsx.length) (hy : i < t.ptsy.length),
        xs[i]? = some (Real.cos t.psi * (t.ptsx.get ⟨i, hx⟩ - t.x)
                        + Real.sin t.psi * (t.ptsy.get ⟨i, hy⟩ - t.y)) ∧
        ys[i]? = some (Real.cos t.psi * (t.ptsy.get ⟨i, hy⟩ - t.y)
                        - Real.sin t.psi * (t.ptsx.get ⟨i, hx⟩ - t.x))) ∧
      polyfit qrSolve xs ys 3 =
        (if 4 ≤ t.ptsx.length then .ok (qrSolve (designMatrix xs 3) ys)
         else .error .assertFailed) ∧
      (4 ≤ t.ptsx.length → 1 < (qrSolve (designMatrix xs 3) ys).length →
        ∃ cmd, onTelemetry Real.cos Real.sin Real.arctan qrSolve mpcSolve t = .ok cmd ∧
          cmd.next_x = xs ∧ cmd.next_y = ys) := by
  have hlx : ((t.ptsx.zip t.ptsy).map
      (fun p => (toVehicle Real.cos Real.sin t.x t.y t.psi p).1)).length = t.ptsx.length := by
    simp [List.length_zip]; omega
  have hly : ((t.ptsx.zip t.ptsy).map
      (fun p => (toVehicle Real.cos Real.sin t.x t.y t.psi p).2)).length = t.ptsx.length := by
    simp [List.length_zip]; omega
  refine ⟨_, _, transformWaypoints_of_le Real.cos Real.sin t.ptsx t.ptsy t.x t.y t.psi hle,
    hlx, hly, ?_, ?_, ?_⟩
  · intro i hx hy
    have hz : i < (t.ptsx.zip t.ptsy).length := by simp [List.length_zip]; omega
    simp [List.getElem?_map, List.getElem?_eq_getElem hz, List.getElem_zip, toVehicle]
  · rw [polyfit_three, hlx, hly]
    simp
  · intro h4 hc
    obtain ⟨c0, c1, rest, hq⟩ := list_of_one_lt_length _ hc
    obtain ⟨state, _, hin⟩ := solveInput_of_le Real.cos Real.sin Real.arctan qrSolve t hle h4
      _ _ rfl rfl c0 c1 rest hq
    exact ⟨_, onTelemetry_of_solveInput Real.cos Real.sin Real.arctan qrSolve mpcSolve t _ hin,
      rfl, rfl⟩

theorem waypoints_ptsy_not_shorter_witness :
    ([0, 1, 2, 3] : List ℝ).length ≤ ([0, 0, 0, 0, 7] : List ℝ).length ∧
    ∃ xs ys : List ℝ,
      transformWaypoints Real.cos Real.sin [0, 1, 2, 3] [0, 0, 0, 0, 7] 0 0 0 = .ok (xs, ys) ∧
      xs.length = 4 ∧ ys.length = 4 ∧
      polyfit (fun _ _ => [0, 0, 0, 0]) xs ys 3 = .ok [0, 0, 0, 0] ∧
      ∃ cmd, onTelemetry Real.cos Real.sin Real.arctan (fun _ _ => [0, 0, 0, 0])
          (fun _ _ => ⟨0, 0, [], []⟩) ⟨[0, 1, 2, 3], [0, 0, 0, 0, 7], 0, 0, 0, 10, 0, 0⟩ = .ok cmd ∧
        cmd.next_x = xs ∧ cmd.next_y = ys :=
  ⟨by decide,
    (waypoints_ptsy_not_shorter ⟨[0, 1, 2, 3], [0, 0, 0, 0, 7], 0, 0, 0, 10, 0, 0⟩
      (fun _ _ => [0, 0, 0, 0]) (fun _ _ => ⟨0, 0, [], []⟩) (by decide)).imp
      fun _ hx => hx.imp fun _ h =>
        ⟨h.1, h.2.1, h.2.2.1, h.2.2.2.2.1, h.2.2.2.2.2 (by decide) (by decide)⟩⟩

/-- Claim C5, counterexample. For the telemetry event with `ptsx = [0, 1, 2, 3]` and
`ptsy = [0, 0, 0, 0, 7]`, whose lists differ in length, the handler does not fail: it
fits, solves and builds a command, and the command shows the four transformed points. -/
theorem mismatched_waypoints_counterexample :
    ([0, 1, 2, 3] : List ℝ).length ≠ ([0, 0, 0, 0, 7] : List ℝ).length ∧
    ∃ cmd, onTelemetry Real.cos Real.sin Real.arctan (fun _ _ => [0, 0, 0, 0])
        (fun _ _ => ⟨0, 0, [], []⟩)
        ⟨[0, 1, 2, 3], [0, 0, 0, 0, 7], 0, 0, 0, 10, 0, 0⟩ = .ok cmd ∧
      cmd.next_x = [0, 1, 2, 3] ∧ cmd.next_y = [0, 0, 0, 0] := by
  refine ⟨by decide, ?_⟩
  obtain ⟨state, _, hin⟩ := solveInput_of_le Real.cos Real.sin Real.arctan
    (fun _ _ => [0, 0, 0, 0]) ⟨[0, 1, 2, 3], [0, 0, 0, 0, 7], 0, 0, 0, 10, 0, 0⟩
    (by decide) (by decide) _ _ rfl rfl 0 0 [0, 0] rfl
  refine ⟨_, onTelemetry_of_solveInput _ _ _ _ _ _ _ hin, ?_, ?_⟩
  · simp [toVehicle]
  · simp [toVehicle]

/-- Claim C6, amended. `polyfit` of order 3 fails, by its assertions, exactly when the two
vectors differ in length or hold fewer than 4 points, and then returns no coefficient
vector; for 4 or more points it returns what the solve gives for the matrix built from
`xvals`, whatever the rank of that matrix: no `DegenerateFit` outcome exists. The handler,
given 4 or more waypoints, takes `cte`, `epsi` and the state for the solve from that vector. -/
theorem polyfit_guards_size_only (qrSolve : List (List ℝ) → List ℝ → List ℝ)
    (xvals yvals : List ℝ) (t : Telemetry ℝ) :
    polyfit qrSolve xvals yvals 3 =
      (if xvals.length = yvals.length ∧ 4 ≤ xvals.length
       then .ok (qrSolve (designMatrix xvals 3) yvals)
       else .error .assertFailed) ∧
    (t.ptsx.length = t.ptsy.length → 4 ≤ t.ptsx.length →
      ∃ xs ys : List ℝ,
        transformWaypoints Real.cos Real.sin t.ptsx t.ptsy t.x t.y t.psi = .ok (xs, ys) ∧
        ∀ (c0 c1 : ℝ) (rest : List ℝ), qrSolve (designMatrix xs 3) ys = c0 :: c1 :: rest →
          ∃ state,
            predictState Real.sin Real.arctan t.speed t.steering_angle t.throttle
              (c0 :: c1 :: rest) = .ok state ∧
            solveInput Real.cos Real.sin Real.arctan qrSolve t
              = .ok ((xs, ys), c0 :: c1 :: rest, state)) := by
  refine ⟨polyfit_three qrSolve xvals yvals, ?_⟩
  intro hlen h4
  refine ⟨_, _, transformWaypoints_of_le Real.cos Real.sin t.ptsx t.ptsy t.x t.y t.psi
    (by omega), ?_⟩
  intro c0 c1 rest hq
  exact solveInput_of_le Real.cos Real.sin Real.arctan qrSolve t (by omega) h4 _ _ rfl rfl
    c0 c1 rest hq

theorem polyfit_guards_size_only_witness :
    polyfit (fun _ _ => [5, 6, 7, 8]) ([0, 0, 0] : List ℝ) [1, 2, 3] 3 = .error .assertFailed ∧
    ∃ xs ys : List ℝ,
      transformWaypoints Real.cos Real.sin [0, 1, 2, 3] [1, 2, 3, 4] 0 0 0 = .ok (xs, ys) ∧
      ∃ state, solveInput Real.cos Real.sin Real.arctan (fun _ _ => [5, 6, 7, 8])
        ⟨[0, 1, 2, 3], [1, 2, 3, 4], 0, 0, 0, 10, 0, 0⟩ = .ok ((xs, ys), [5, 6, 7, 8], state) :=
  ⟨(polyfit_guards_size_only (fun _ _ => [5, 6, 7, 8]) [0, 0, 0] [1, 2, 3]
      ⟨[0, 1, 2, 3], [1, 2, 3, 4], 0, 0, 0, 10, 0, 0⟩).1.trans (if_neg (by decide)),
   ((polyfit_guards_size_only (fun _ _ => [5, 6, 7, 8]) [0, 0, 0] [1, 2, 3]
      ⟨[0, 1, 2, 3], [1, 2, 3, 4], 0, 0, 0, 10, 0, 0⟩).2 (by decide) (by decide)).imp
      fun _ hx => hx.imp fun _ h => ⟨h.1, (h.2 5 6 [7, 8] rfl).imp fun _ hs => hs.2⟩⟩

/-- Claim C6, counterexample. Four points that all have `x = 0` give a design matrix of
rank 1, yet `polyfit` returns the solve's vector, and the handler run on those waypoints
goes on to the solve and builds a command from it. -/
theorem degenerate_fit_counterexample :
    ([0, 0, 0, 0] : List ℝ).toFinset.card < 4 ∧
    designMatrix ([0, 0, 0, 0] : List ℝ) 3
      = [[1, 0, 0, 0], [1, 0, 0, 0], [1, 0, 0, 0], [1, 0, 0, 0]] ∧
    (∀ qrSolve : List (List ℝ) → List ℝ → List ℝ,
      polyfit qrSolve ([0, 0, 0, 0] : List ℝ) [1, 2, 3, 4] 3
        = .ok (qrSolve (designMatrix [0, 0, 0, 0] 3) [1, 2, 3, 4])) ∧
    ∃ cmd, onTelemetry Real.cos Real.sin Real.arctan (fun _ _ => [5, 6, 7, 8])
        (fun _ coeffs => ⟨coeffs.getD 0 0, coeffs.getD 1 0, [], []⟩)
        ⟨[0, 0, 0, 0], [1, 2, 3, 4], 0, 0, 0, 10, 0, 0⟩ = .ok cmd ∧
      cmd.steering_angle = 5 ∧ cmd.throttle = 6 := by
  refine ⟨by simp, by simp [designMatrix, designRow, designRowFrom], ?_, ?_⟩
  · intro qrSolve
    rw [polyfit_three, if_pos ⟨by simp, by simp⟩]
  · obtain ⟨state, _, hin⟩ := solveInput_of_le Real.cos Real.sin Real.arctan
      (fun _ _ => [5, 6, 7, 8]) ⟨[0, 0, 0, 0], [1, 2, 3, 4], 0, 0, 0, 10, 0, 0⟩
      (by decide) (by decide) _ _ rfl rfl 5 6 [7, 8] rfl
    exact ⟨_, onTelemetry_of_solveInput _ _ _ _ _ _ _ hin, rfl, rfl⟩

/-- Claim C7, amended. For every telemetry event that reaches the solve, whatever status
the nonlinear solve ends with, `MPC::Solve` hands back only its four output values, and
the handler puts the solve's actuation into `steering_angle` and `throttle` of the command
and its trajectory into `mpc_x` and `mpc_y`, next to the transformed waypoints. -/
theorem solver_output_always_emitted (t : Telemetry ℝ)
    (qrSolve : List (List ℝ) → List ℝ → List ℝ) (nlp : List ℝ → List ℝ → SolveResult ℝ)
    (pts : List ℝ × List ℝ) (coeffs state : List ℝ)
    (hin : solveInput Real.cos Real.sin Real.arctan qrSolve t = .ok (pts, coeffs, state)) :
    onTelemetry Real.cos Real.sin Real.arctan qrSolve (MPC.Solve nlp) t =
      .ok { steering_angle := (nlp state coeffs).actuation.1
            throttle := (nlp state coeffs).actuation.2
            mpc_x := (nlp state coeffs).trajectory.map Prod.fst
            mpc_y := (nlp state coeffs).trajectory.map Prod.snd
            next_x := pts.1
            next_y := pts.2 } :=
  onTelemetry_of_solveInput Real.cos Real.sin Real.arctan qrSolve (MPC.Solve nlp) t _ hin

/-- Claim C7, counterexample. A solve that ends non-converged with the actuation `(1, 1)`:
`MPC::Solve` hands the caller no failure, and the command of the handler carries the
values `1` and `1` as `steering_angle` and `throttle`. -/
theorem solver_failure_counterexample :
    (∀ state coeffs : List ℝ,
      ((fun _ _ => ⟨(1, 1), [], .nonConverged⟩ : List ℝ → List ℝ → SolveResult ℝ)
        state coeffs).status ≠ .converged) ∧
    ∃ cmd, onTelemetry Real.cos Real.sin Real.arctan (fun _ _ => [0, 0, 0, 0])
        (MPC.Solve (fun _ _ => ⟨(1, 1), [], .nonConverged⟩))
        ⟨[0, 1, 2, 3], [0, 0, 0, 0], 0, 0, 0, 10, 0, 0⟩ = .ok cmd ∧
      cmd.steering_angle = 1 ∧ cmd.throttle = 1 := by
  refine ⟨fun _ _ => by simp, ?_⟩
  obtain ⟨state, _, hin⟩ := solveInput_of_le Real.cos Real.sin Real.arctan
    (fun _ _ => [0, 0, 0, 0]) ⟨[0, 1, 2, 3], [0, 0, 0, 0], 0, 0, 0, 10, 0, 0⟩
    (by decide) (by decide) _ _ rfl rfl 0 0 [0, 0] rfl
  exact ⟨_, onTelemetry_of_solveInput _ _ _ _ _ _ _ hin, rfl, rfl⟩

theorem solver_output_always_emitted_witness :
    ∃ (pts : List ℝ × List ℝ) (coeffs state : List ℝ),
      solveInput Real.cos Real.sin Real.arctan (fun _ _ => [0, 0, 0, 0])
        ⟨[0, 1, 2, 3], [0, 0, 0, 0], 0, 0, 0, 10, 0, 0⟩ = .ok (pts, coeffs, state) ∧
      onTelemetry Real.cos Real.sin Real.arctan (fun _ _ => [0, 0, 0, 0])
        (MPC.Solve (fun _ _ => ⟨(2, 3), [(4, 5)], .infeasible⟩))
        ⟨[0, 1, 2, 3], [0, 0, 0, 0], 0, 0, 0, 10, 0, 0⟩ =
        .ok { steering_angle := 2, throttle := 3, mpc_x := [4], mpc_y := [5],
              next_x := pts.1, next_y := pts.2 } := by
  obtain ⟨state, _, hin⟩ := solveInput_of_le Real.cos Real.sin Real.arctan
    (fun _ _ => [0, 0, 0, 0]) ⟨[0, 1, 2, 3], [0, 0, 0, 0], 0, 0, 0, 10, 0, 0⟩
    (by decide) (by decide) _ _ rfl rfl 0 0 [0, 0] rfl
  exact ⟨_, _, _, hin,
    solver_output_always_emitted ⟨[0, 1, 2, 3], [0, 0, 0, 0], 0, 0, 0, 10, 0, 0⟩
      (fun _ _ => [0, 0, 0, 0]) (fun _ _ => ⟨(2, 3), [(4, 5)], .infeasible⟩) _ _ _ hin⟩

/-! ## `hasData` -/

theorem findFrom_eq_none_iff (pat : List Char) :
    ∀ (s : List Char) (i : Nat), findFrom pat s i = none ↔ ¬ pat <:+: s := by
  intro s
  induction s with
  | nil =>
    intro i
    by_cases h : pat = []
    · simp [findFrom, h]
    · simp [findFrom, h, List.infix_nil]
  | cons c cs ih =>
    intro i
    by_cases h : pat <+: c :: cs
    · simp [findFrom, h, List.infix_cons_iff]
    · simp [findFrom, h, List.infix_cons_iff, ih]

theorem findFirstOfFrom_eq_none_iff (set : List Char) :
    ∀ (s : List Char) (i : Nat), findFirstOfFrom set s i = none ↔ ∀ c ∈ s, c ∉ set := by
  intro s
  induction s with
  | nil => intro i; simp [findFirstOfFrom]
  | cons c cs ih =>
    intro i
    by_cases h : c ∈ set
    · simp [findFirstOfFrom, h]
    · simp [findFirstOfFrom, h, ih]

theorem findFirstOfFrom_append (set : List Char) (c : Char) (rest : List Char) (hc : c ∈ set) :
    ∀ (pre : List Char) (i : Nat), (∀ d ∈ pre, d ∉ set) →
      findFirstOfFrom set (pre ++ c :: rest) i = some (i + pre.length) := by
  intro pre
  induction pre with
  | nil => intro i _; simp [findFirstOfFrom, hc]
  | cons a pre ih =>
    intro i h
    have ha : a ∉ set := h a (List.mem_cons_self a pre)
    have hpre : ∀ d ∈ pre, d ∉ set := fun d hd => h d (List.mem_cons_of_mem a hd)
    rw [List.cons_append, findFirstOfFrom, if_neg ha, ih (i + 1) hpre, List.length_cons]
    exact congrArg some (by omega)

theorem rfindFrom_eq_none_iff (pat : List Char) :
    ∀ (s : List Char) (i : Nat), rfindFrom pat s i = none ↔ ¬ pat <:+: s := by
  intro s
  induction s with
  | nil =>
    intro i
    by_cases h : pat = []
    · simp [rfindFrom, h]
    · simp [rfindFrom, h, List.infix_nil]
  | cons c cs ih =>
    intro i
    cases hr : rfindFrom pat cs (i + 1) with
    | some k =>
      have : pat <:+: cs := by
        by_contra hcon
        rw [(ih (i + 1)).mpr hcon] at hr
        cases hr
      simp [rfindFrom, hr, List.infix_cons_iff, this]
    | none =>
      have hcs : ¬ pat <:+: cs := (ih (i + 1)).mp hr
      by_cases h : pat <+: c :: cs
      · simp [rfindFrom, hr, h, List.infix_cons_iff]
      · simp [rfindFrom, hr, h, List.infix_cons_iff, hcs]

theorem rfindFrom_append (pat : List Char) (c : Char) (cs : List Char)
    (hp : pat <+: c :: cs) (hlast : ¬ pat <:+: cs) :
    ∀ (u : List Char) (i : Nat), rfindFrom pat (u ++ c :: cs) i = some (i + u.length) := by
  intro u
  induction u with
  | nil =>
    intro i
    have hr : rfindFrom pat cs (i + 1) = none := (rfindFrom_eq_none_iff pat cs (i + 1)).mpr hlast
    simp [rfindFrom, hr, hp]
  | cons a u ih =>
    intro i
    rw [List.cons_append, rfindFrom, ih (i + 1), List.length_cons]
    exact congrArg some (by omega)

theorem hasData_of_null (s : List Char) (h : nullText <:+: s) : hasData s = [] := by
  unfold hasData
  cases hf : find s nullText with
  | none => exact absurd h ((findFrom_eq_none_iff nullText s 0).mp hf)
  | some k => rfl

theorem hasData_of_slice (pre mid post : List Char)
    (hsize : (pre ++ '[' :: mid ++ closeText ++ post).length < 2 ^ 64)
    (hnull : ¬ nullText <:+: pre ++ '[' :: mid ++ closeText ++ post)
    (hpre : '[' ∉ pre) (hpost : ¬ closeText <:+: post) :
    hasData (pre ++ '[' :: mid ++ closeText ++ post) = '[' :: mid ++ closeText := by
  have hf : find (pre ++ '[' :: mid ++ closeText ++ post) nullText = none :=
    (findFrom_eq_none_iff nullText _ 0).mpr hnull
  have hb1 : findFirstOf (pre ++ '[' :: mid ++ closeText ++ post) openText
      = some pre.length := by
    have := findFirstOfFrom_append openText '[' (mid ++ closeText ++ post) (by simp [openText])
      pre 0 (fun d hd hmem => hpre (by simp [openText] at hmem; exact hmem ▸ hd))
    simpa [findFirstOf] using this
  have hb2 : rfind (pre ++ '[' :: mid ++ closeText ++ post) closeText
      = some (pre.length + (mid.length + 1)) := by
    have hlast : ¬ closeText <:+: ']' :: post := by
      rw [List.infix_cons_iff]
      rintro (h | h)
      · simp [closeText] at h
      · exact hpost h
    have := rfindFrom_append closeText '}' (']' :: post) (by simp [closeText]) hlast
      (pre ++ '[' :: mid) 0
    simpa [rfind, closeText, Nat.add_assoc] using this
  have hlen : mid.length + 3 < 2 ^ 64 := by
    simp [closeText] at hsize
    omega
  have hmod : (pre.length + (mid.length + 1) + 2 ^ 64 - pre.length + 2) % 2 ^ 64
      = mid.length + 3 := by
    omega
  unfold hasData
  simp only [hf, hb1, hb2, hmod, substr]
  have e1 : pre ++ '[' :: mid ++ closeText ++ post
      = pre ++ (('[' :: mid ++ closeText) ++ post) := by simp
  have e2 : mid.length + 3 = ('[' :: mid ++ closeText).length := by simp [closeText]
  rw [e1, List.drop_left, e2, List.take_left]

theorem hasData_of_missing (s : List Char) (hnull : ¬ nullText <:+: s)
    (h : '[' ∉ s ∨ ¬ closeText <:+: s) : hasData s = [] := by
  have hf : find s nullText = none := (findFrom_eq_none_iff nullText s 0).mpr hnull
  unfold hasData
  rw [hf]
  rcases h with h | h
  · have hb1 : findFirstOf s openText = none :=
      (findFirstOfFrom_eq_none_iff openText s 0).mpr
        (fun c hc hmem => h (by simp [openText] at hmem; exact hmem ▸ hc))
    simp [hb1]
  · have hb2 : rfind s closeText = none := (rfindFrom_eq_none_iff closeText s 0).mpr h
    simp only [hb2]
    cases findFirstOf s openText <;> rfl

/-- The behaviour of `hasData` where no wrap-around occurs. For every string `s`: if `s`
contains `null`, `hasData s` is empty;
otherwise, if `s` contains `[` and `}]` with the first `[` before the last `}]`, that is
`s = pre ++ "[" ++ mid ++ "}]" ++ post` with no `[` in `pre` and no `}]` in `post`, then
`hasData s` is the slice `"[" ++ mid ++ "}]"`, which starts with `[` and ends with `}]`;
otherwise, if `s` has no `[` or no `}]`, `hasData s` is empty. -/
theorem hasData_payload (s : List Char) (hsize : s.length < 2 ^ 64) :
    (nullText <:+: s → hasData s = []) ∧
    (¬ nullText <:+: s → ∀ pre mid post : List Char,
      s = pre ++ '[' :: mid ++ closeText ++ post → '[' ∉ pre → ¬ closeText <:+: post →
        hasData s = '[' :: mid ++ closeText ∧ openText <+: hasData s ∧
          closeText <:+ hasData s) ∧
    (¬ nullText <:+: s → ('[' ∉ s ∨ ¬ closeText <:+: s) → hasData s = []) := by
  refine ⟨hasData_of_null s, ?_, hasData_of_missing s⟩
  intro hnull pre mid post hs hpre hpost
  subst hs
  have h := hasData_of_slice pre mid post hsize hnull hpre hpost
  refine ⟨h, ?_, ?_⟩
  · rw [h]
    exact ⟨mid ++ closeText, by simp [openText]⟩
  · rw [h]
    exact ⟨'[' :: mid, by simp⟩

theorem hasData_payload_witness :
    (['4', '2', '[', '{', '}', ']', 'x'] : List Char).length < 2 ^ 64 ∧
    hasData ['4', '2', '[', '{', '}', ']', 'x'] = ['[', '{', '}', ']'] :=
  ⟨by decide,
   ((hasData_payload ['4', '2', '[', '{', '}', ']', 'x'] (by decide)).2.1 (by decide)
      ['4', '2'] ['{'] ['x'] rfl (by decide) (by decide)).1⟩

/-- Claim C9, the code at the failing input. The message `42}]x[` has no `null` and
contains both `[` and `}]`, but the last `}]` comes before the first `[`: the length
`b2 - b1 + 2` wraps around in `size_t` and `hasData` returns `[`, which is not empty and does
not end with `}]`. For `42}][` the length is 0 and `hasData` returns the empty string, which
does not start with `[`. -/
theorem hasData_close_before_open :
    (¬ nullText <:+: ['4', '2', '}', ']', 'x', '[']) ∧ '[' ∈ ['4', '2', '}', ']', 'x', '['] ∧
    closeText <:+: ['4', '2', '}', ']', 'x', '['] ∧
    findFirstOf ['4', '2', '}', ']', 'x', '['] openText = some 5 ∧
    rfind ['4', '2', '}', ']', 'x', '['] closeText = some 2 ∧
    (2 + 2 ^ 64 - 5 + 2) % 2 ^ 64 = 2 ^ 64 - 1 ∧
    hasData ['4', '2', '}', ']', 'x', '['] = ['['] ∧
    (¬ closeText <:+ hasData ['4', '2', '}', ']', 'x', '[']) ∧
    (¬ nullText <:+: ['4', '2', '}', ']', '[']) ∧ '[' ∈ ['4', '2', '}', ']', '['] ∧
    closeText <:+: ['4', '2', '}', ']', '['] ∧
    hasData ['4', '2', '}', ']', '['] = [] ∧
    (¬ openText <+: hasData ['4', '2', '}', ']', '[']) := by
  decide

end MPCProject
